import Mathlib

/-!
Shallow embedding of `pennylane/circuit_drawer/representation_resolver.py`
(class `RepresentationResolver`), which maps PennyLane operator objects to
their string representations for the text circuit drawer.

Python floats are modelled as rational numbers (the value of a finite IEEE
double is a rational), integers and numpy scalars as rationals as well, and
numpy arrays as lists (vectors) or lists of lists (matrices) of rationals.
`np.array_equal` is value equality including shape, which is plain equality
of these modelled values, so the matrix caches are modelled with a generic
decidable equality.

The resolver is parameterised by a `charset` object (from `charsets.py`,
which is not part of the sources under inspection); it is modelled as an
abstract structure of glyph fields, and all general theorems quantify over
it.  A concrete `specCharset` is also provided, modelled from the spec.
-/

namespace PL

set_option maxHeartbeats 1000000

/-- The character-set object handed to `RepresentationResolver.__init__`.
It supplies fixed glyphs and the superscript/subscript conversions.
`to_superscript` is applied to the string `"-1"` (and to the digit `2`,
rendered here as the string `"2"`); `to_subscript` is applied to mode
indices (natural numbers). -/
structure Charset where
  CONTROL : String
  OTIMES : String
  PIPE : String
  LANGLE : String
  RANGLE : String
  CROSSED_LINES : String
  to_superscript : String → String
  to_subscript : Nat → String

/-- A value occurring in an operator's `data` tuple (or as `op.U`):
a Python/numpy scalar, a string, a 1-D array or a 2-D array. -/
inductive Datum where
  | num (q : ℚ)
  | str (s : String)
  | vec (v : List ℚ)
  | mat (m : List (List ℚ))
deriving DecidableEq

/-- A measurement return type (`qml.operation.Expectation`, ...).  The
constructor `other` stands for any further tag an observable might carry. -/
inductive ReturnType where
  | Expectation
  | Variance
  | Sample
  | Probability
  | State
  | other (tag : String)
deriving DecidableEq

/-- The digit character of `n % 10`. -/
def digitChar (n : Nat) : Char := Char.ofNat (48 + n % 10)

/-- Decimal digits of `n` (most significant first); fuel-based so that it
is structurally recursive and kernel-evaluable. -/
def natDigitsAux : Nat → Nat → List Char
  | 0, _ => [Char.ofNat 48]
  | fuel + 1, n => if n < 10 then [digitChar n] else natDigitsAux fuel (n / 10) ++ [digitChar (n % 10)]

/-- Decimal digit characters of a natural number. -/
def natDigits (n : Nat) : List Char := natDigitsAux n n

/-- The exponent digits of the `e+XX` part of `%g` scientific notation:
at least two digits, zero-padded. -/
def expDigits (n : Nat) : List Char :=
  if n < 10 then [Char.ofNat 48, digitChar n] else natDigits n

/-- The three decimal digit characters of a number `100 ≤ m ≤ 999`. -/
def digits3 (m : Nat) : List Char :=
  [digitChar (m / 100), digitChar (m / 10 % 10), digitChar (m % 10)]

/-- Remove trailing `'0'` characters. -/
def stripTrailingZeros (l : List Char) : List Char :=
  (l.reverse.dropWhile (fun c => c == '0')).reverse

/-- `leastPow n d fuel k`: the least `j ≥ k` with `d ≤ n * 10 ^ j`,
searched with the given fuel. -/
def leastPow (n d : Nat) : Nat → Nat → Nat
  | 0, k => k
  | fuel + 1, k => if d ≤ n * 10 ^ k then k else leastPow n d fuel (k + 1)

/-- Fuel-based floor logarithm base 10 (kernel-evaluable). -/
def log10fuel : Nat → Nat → Nat
  | 0, _ => 0
  | fuel + 1, n => if n < 10 then 0 else log10fuel fuel (n / 10) + 1

/-- Floor logarithm base 10. -/
def log10 (n : Nat) : Nat := log10fuel n n

/-- The decimal exponent of the positive rational `na / d`: the unique `e`
with `10 ^ e ≤ na / d < 10 ^ (e + 1)`.  For `na / d ≥ 1` it is the number
of integer digits minus one; otherwise it is minus the least `k` with
`(na / d) * 10 ^ k ≥ 1`. -/
def exponent10 (na d : Nat) : ℤ :=
  if d ≤ na then (log10 (na / d) : ℤ)
  else -(leastPow na d d 0 : ℤ)

/-- Round the nonnegative fraction `N / D` to the nearest natural number,
ties to the even one.  This is the rounding used when a binary64 value is
printed with a restricted number of significant decimal digits. -/
def roundHalfEvenPos (N D : Nat) : Nat :=
  let f := N / D
  let r2 := 2 * (N % D)
  if r2 < D then f
  else if D < r2 then f + 1
  else if f % 2 = 0 then f else f + 1

/-- The character list of `%.3g` output for a positive value with rounded
3-digit mantissa `m` (`100 ≤ m ≤ 999`) and decimal exponent `e`:
scientific notation when `e < -4` or `e ≥ 3`, otherwise positional
notation, with trailing zeros of the fraction removed. -/
def render3gBody (m : Nat) (e : ℤ) : List Char :=
  let D := stripTrailingZeros (digits3 m)
  if e < -4 ∨ 3 ≤ e then
    D.take 1 ++ (if D.length ≤ 1 then [] else '.' :: D.drop 1)
      ++ 'e' :: (if e < 0 then '-' else '+') :: expDigits e.natAbs
  else if 0 ≤ e then
    let k := e.toNat + 1
    if D.length ≤ k then D ++ List.replicate (k - D.length) '0'
    else D.take k ++ '.' :: D.drop k
  else
    '0' :: '.' :: (List.replicate (e.natAbs - 1) '0' ++ D)

/-- The digits of `%.3g` output for the positive fraction `na / d`
(`na ≥ 1`, `d ≥ 1`): scale by `10 ^ (2 - e)` (as an exact fraction), round
to a three-digit mantissa with ties to even (with a carry when the
mantissa rounds up to `1000`), and render. -/
def format3gPos (na d : Nat) : List Char :=
  let e := exponent10 na d
  let scaled := if e ≤ 2 then (na * 10 ^ (2 - e).toNat, d) else (na, d * 10 ^ (e - 2).toNat)
  let m0 := roundHalfEvenPos scaled.1 scaled.2
  if m0 = 1000 then render3gBody 100 (e + 1) else render3gBody m0 e

/-- Python's `format(x, ".3g")` on a finite float of rational value `q`:
round to three significant decimal digits (ties to even) and render,
stripping trailing fraction zeros, in positional or scientific notation
according to the decimal exponent.  Implemented on the integer pair
`(q.num, q.den)` so that it evaluates inside the kernel. -/
def format3g (q : ℚ) : String :=
  if q.num = 0 then "0"
  else String.mk ((if q.num < 0 then ['-'] else []) ++ format3gPos q.num.natAbs q.den)

/-- Python's `format(x, "+.3g")`: as `format3g` but with an explicit sign. -/
def format3gSigned (q : ℚ) : String :=
  if 0 ≤ q then "+" ++ format3g q else format3g q

/-- The number of significant digits in a rendered number: digits of the
mantissa part (before any `'e'`), after discarding leading zeros. -/
def sigDigitCount (s : String) : Nat :=
  (((s.data.takeWhile (fun c => !(c == 'e'))).filter (fun c => c.isDigit)).dropWhile
    (fun c => c == '0')).length

/-- Python's `str` of an integer-valued scalar (used for Fock / basis state
labels, which are integers in the drawn circuits).  A non-integral rational
falls back to the `%.3g` rendering; Python's `str` of a float prints the
shortest round-tripping decimal instead, but no claim and no drawn integer
label depends on that case. -/
def pyNumStr (q : ℚ) : String :=
  if q.den = 1 then
    String.mk ((if q.num < 0 then ['-'] else []) ++ natDigits q.num.natAbs)
  else format3g q

/-- `RepresentationResolver.index_of_array_or_append` (lines 85-103):
return the first index of an appearance of the target element in the
target list; if the target element is not in the list it is appended and
the new last index returned.  The Python version mutates `target_list`;
here the (possibly extended) list is returned alongside the index.
`np.array_equal` (value equality including shape) is decidable equality
of the modelled array values. -/
def index_of_array_or_append {α : Type} [DecidableEq α] (target_element : α) :
    List α → Nat × List α
  | [] => (0, [target_element])
  | target :: rest =>
    if target = target_element then (0, target :: rest)
    else
      let r := index_of_array_or_append target_element rest
      (r.1 + 1, target :: r.2)

/-- `RepresentationResolver.single_parameter_representation` (lines
105-118): a string parameter is returned unchanged; a numeric parameter is
rendered as `f"{1.0 * par:.3g}"` (the multiplication by `1.0` only coerces
ints and bools to float and does not change the value).  Formatting a
numpy array this way raises `TypeError` in Python; the model returns `""`
there (no claim exercises that case). -/
def single_parameter_representation (par : Datum) : String :=
  match par with
  | .str s => s
  | .num q => format3g q
  | .vec _ => ""
  | .mat _ => ""

/-- `RepresentationResolver._format_poly_term` (lines 174-194): format a
term of a polynomial, omitting a zero coefficient, omitting the magnitude
for coefficients `1.0` and `-1.0`, and otherwise using `"{:+.3g}"`. -/
def format_poly_term (coefficient : ℚ) (variable' : String) : String :=
  if coefficient = 0 then ""
  else if coefficient = 1 then variable'
  else if coefficient = -1 then "-" ++ variable'
  else format3gSigned coefficient ++ variable'

/-- `RepresentationResolver._format_polyxp_order1` (lines 196-220): format
a first-order polynomial of x and p operators from a coefficient vector. -/
def format_polyxp_order1 (cs : Charset) (coefficients : List ℚ) : String :=
  let c := fun i => coefficients.getD i 0
  let head := if c 0 ≠ 0 then format3g (c 0) else ""
  head ++ String.join ((List.range (coefficients.length / 2)).map (fun idx =>
    format_poly_term (c (2 * idx + 1)) ("x" ++ cs.to_subscript idx)
      ++ format_poly_term (c (2 * idx + 2)) ("p" ++ cs.to_subscript idx)))

/-- `RepresentationResolver._format_polyxp_order2` (lines 222-300): format
a second-order polynomial of x and p operators from a coefficient matrix.
`str(coefficients[0, 0])` is modelled by `pyNumStr`. -/
def format_polyxp_order2 (cs : Charset) (coefficients : List (List ℚ)) : String :=
  let c := fun i j => (coefficients.getD i []).getD j 0
  let n := coefficients.length / 2
  let linear := String.join ((List.range n).map (fun idx =>
    format_poly_term (c 0 (2 * idx + 1) + c (2 * idx + 1) 0) ("x" ++ cs.to_subscript idx)
      ++ format_poly_term (c 0 (2 * idx + 2) + c (2 * idx + 2) 0) ("p" ++ cs.to_subscript idx)))
  let quadratic := String.join ((List.range n).map (fun idx1 =>
    String.join ((List.range' idx1 (n - idx1)).map (fun idx2 =>
      let x1 := 2 * idx1 + 1
      let p1 := 2 * idx1 + 2
      let x2 := 2 * idx2 + 1
      let p2 := 2 * idx2 + 2
      if idx1 = idx2 then
        format_poly_term (c x1 x1) ("x" ++ cs.to_subscript idx1 ++ cs.to_superscript "2")
          ++ format_poly_term (c p1 p1) ("p" ++ cs.to_subscript idx1 ++ cs.to_superscript "2")
          ++ format_poly_term (c x1 p1 + c p1 x1)
            ("x" ++ cs.to_subscript idx1 ++ "p" ++ cs.to_subscript idx1)
      else
        format_poly_term (c x1 x2 + c x2 x1)
            ("x" ++ cs.to_subscript idx1 ++ "x" ++ cs.to_subscript idx2)
          ++ format_poly_term (c p1 p2 + c p2 p1)
            ("p" ++ cs.to_subscript idx1 ++ "p" ++ cs.to_subscript idx2)
          ++ format_poly_term (c x1 p2 + c p2 x1)
            ("x" ++ cs.to_subscript idx1 ++ "p" ++ cs.to_subscript idx2)
          ++ format_poly_term (c p1 x2 + c x2 p1)
            ("x" ++ cs.to_subscript idx2 ++ "p" ++ cs.to_subscript idx1)))))
  pyNumStr (c 0 0) ++ linear ++ quadratic

/-- A PennyLane operator / observable object, reduced to the attributes
`representation_resolver.py` reads: `name`, the optional `base_name`
attribute (`getattr(op, "base_name", op.name)` — `none` models absence),
`wires`, the `data` tuple, `num_params`, the optional `inverse` flag
(`getattr(op, "inverse", False)`), `control_wires` and `U` (only read for
`ControlledQubitUnitary` / `MultiControlledX`), the measurement
`return_type` (`none` models Python `None`) and whether the object is an
`Observable` instance. -/
structure Operator where
  name : String
  base_name : Option String := none
  wires : List Nat := []
  data : List Datum := []
  num_params : Nat := 0
  inverse : Bool := false
  control_wires : List Nat := []
  U : Datum := .num 0
  return_type : Option ReturnType := none
  is_observable : Bool := false

/-- `getattr(op, "base_name", op.name)`. -/
def baseNameOf (o : Operator) : String := o.base_name.getD o.name

/-- An operator argument of `operator_representation` after unwrapping a
measurement process: a plain operator or a `Tensor` observable (whose
`obs` list the code recurses into).  A Tensor records its own
`return_type` attribute. -/
inductive BareOp where
  | base (o : Operator)
  | tensor (return_type : Option ReturnType) (obs : List BareOp)

/-- An argument of `operator_representation` / `output_representation`:
either a (possibly tensor) operator, or a `MeasurementProcess` carrying a
`return_type` and an optional observable (`op.obs`, `none` for a raw basis
measurement). -/
inductive OpLike where
  | bare (b : BareOp)
  | measurement (return_type : Option ReturnType) (obs : Option BareOp)

/-- The `return_type` attribute of an operator-like object. -/
def OpLike.returnType : OpLike → Option ReturnType
  | .bare (.base o) => o.return_type
  | .bare (.tensor rt _) => rt
  | .measurement rt _ => rt

/-- Whether the object is an `Observable` instance (`qml.operation.Tensor`
subclasses `Observable`) or a `MeasurementProcess`. -/
def OpLike.isObservableOrMP : OpLike → Bool
  | .bare (.base o) => o.is_observable
  | .bare (.tensor _ _) => true
  | .measurement _ _ => true

/-- The three matrix caches of a `RepresentationResolver` instance
(`self.matrix_cache`, `self.unitary_matrix_cache`,
`self.hermitian_matrix_cache`), each created empty and mutated by the
formatting helpers; modelled by explicit state passing. -/
structure Caches where
  matrix_cache : List Datum := []
  unitary_matrix_cache : List Datum := []
  hermitian_matrix_cache : List Datum := []
deriving DecidableEq

/-- `RepresentationResolver.resolution_dict` (lines 38-68): symbol used
for uncontrolled wires. -/
def resolution_dict : List (String × String) :=
  [("PauliX", "X"), ("CNOT", "X"), ("Toffoli", "X"), ("CSWAP", "SWAP"),
   ("PauliY", "Y"), ("PauliZ", "Z"), ("CZ", "Z"), ("Identity", "I"),
   ("Hadamard", "H"), ("MultiRZ", "RZ"), ("CRX", "RX"), ("CRY", "RY"),
   ("CRZ", "RZ"), ("CRot", "Rot"), ("PhaseShift", "Rϕ"),
   ("Beamsplitter", "BS"), ("Squeezing", "S"), ("TwoModeSqueezing", "S"),
   ("Displacement", "D"), ("NumberOperator", "n"), ("Rotation", "R"),
   ("ControlledAddition", "X"), ("ControlledPhase", "Z"),
   ("ThermalState", "Thermal"), ("GaussianState", "Gaussian"),
   ("QuadraticPhase", "P"), ("CubicPhase", "V"), ("X", "x"), ("P", "p")]

/-- `RepresentationResolver.control_wire_dict` (lines 71-82): indices of
control wires. -/
def control_wire_dict : List (String × List Nat) :=
  [("CNOT", [0]), ("Toffoli", [0, 1]), ("CSWAP", [0]), ("CRX", [0]),
   ("CRY", [0]), ("CRZ", [0]), ("CRot", [0]), ("CZ", [0]),
   ("ControlledAddition", [0]), ("ControlledPhase", [0])]

/-- The test at lines 354-356: `base_name in self.control_wire_dict and
wire in [op.wires[control_idx] for control_idx in
self.control_wire_dict[base_name]]`.  Python raises `IndexError` when a
listed control index is out of range of `op.wires`; the model treats such
an index as matching nothing (the claims only concern in-range indices). -/
def controlTest (o : Operator) (wire : Nat) : Bool :=
  match control_wire_dict.lookup (baseNameOf o) with
  | none => false
  | some idxs => decide (∃ i ∈ idxs, o.wires[i]? = some wire)

/-- `RepresentationResolver._format_matrix_operation` (lines 120-135):
look the matrix `operation.data[0]` up in the cache and format it as
`symbol` followed by the index. -/
def format_matrix_operation (o : Operator) (symbol : String) (cache : List Datum) :
    String × List Datum :=
  let r := index_of_array_or_append (o.data.getD 0 (.num 0)) cache
  (symbol ++ String.mk (natDigits r.1), r.2)

/-- `RepresentationResolver._format_controlled_qubit_unitary` (lines
137-152): as `_format_matrix_operation` but on the matrix `operation.U`. -/
def format_controlled_qubit_unitary (o : Operator) (symbol : String) (cache : List Datum) :
    String × List Datum :=
  let r := index_of_array_or_append o.U cache
  (symbol ++ String.mk (natDigits r.1), r.2)

/-- `RepresentationResolver._format_matrix_arguments` (lines 154-172),
the cache-threading loop over the parameter list. -/
def format_matrix_arguments_aux (symbol : String) :
    List Datum → List Datum → List String × List Datum
  | [], cache => ([], cache)
  | p :: ps, cache =>
    let r := index_of_array_or_append p cache
    let rest := format_matrix_arguments_aux symbol ps r.2
    ((symbol ++ String.mk (natDigits r.1)) :: rest.1, rest.2)

/-- `RepresentationResolver._format_matrix_arguments` (lines 154-172):
format a sequence of matrix parameters as `(M0,M1,...)`. -/
def format_matrix_arguments (params : List Datum) (symbol : String) (cache : List Datum) :
    String × List Datum :=
  let r := format_matrix_arguments_aux symbol params cache
  ("(" ++ String.intercalate "," r.1 ++ ")", r.2)

/-- `RepresentationResolver._format_polyxp` (lines 302-319): dispatch on
the order (number of axes) of the coefficient array.  A scalar or string
`data[0]` has no `.shape` in Python (`AttributeError`); the model returns
`""` there (no claim exercises that case). -/
def format_polyxp (cs : Charset) (o : Operator) : String :=
  match o.data.getD 0 (.num 0) with
  | .vec v => format_polyxp_order1 cs v
  | .mat m => format_polyxp_order2 cs m
  | _ => ""

/-- `op.data[i]`, defaulting to `0` out of range (Python raises
`IndexError`; no claim exercises that case). -/
def dataGet (o : Operator) (i : Nat) : Datum := o.data.getD i (.num 0)

/-- The `elif` dispatch of `operator_representation` (lines 360-430) for a
plain operator, after the control-wire test: `Sum.inl` is an early
`return` (the inverse suffix is not appended), `Sum.inr` the computed
`representation` (the inverse suffix is still appended). -/
def opDispatch (cs : Charset) (o : Operator) (wire : Nat) (st : Caches)
    (base_name name : String) : (String × Caches) ⊕ (String × Caches) :=
  if o.num_params = 0 then .inr (name, st)
  else if base_name = "PauliRot" then
    let letter :=
      match dataGet o 1 with
      | .str s => (s.data.getD (o.wires.indexOf wire) ' ').toString
      | _ => ""
    .inr ("R" ++ letter ++ "(" ++ single_parameter_representation (dataGet o 0) ++ ")", st)
  else if base_name = "QubitUnitary" then
    let r := format_matrix_operation o "U" st.unitary_matrix_cache
    .inr (r.1, { st with unitary_matrix_cache := r.2 })
  else if base_name = "ControlledQubitUnitary" then
    if wire ∈ o.control_wires then .inl (cs.CONTROL, st)
    else
      let r := format_controlled_qubit_unitary o "U" st.unitary_matrix_cache
      .inr (r.1, { st with unitary_matrix_cache := r.2 })
  else if base_name = "MultiControlledX" then
    if wire ∈ o.control_wires then .inl (cs.CONTROL, st)
    else .inr ("X", st)
  else if base_name = "Hermitian" then
    let r := format_matrix_operation o "H" st.hermitian_matrix_cache
    .inr (r.1, { st with hermitian_matrix_cache := r.2 })
  else if base_name = "QuadOperator" then
    let par_rep := single_parameter_representation (dataGet o 0)
    .inr ("cos(" ++ par_rep ++ ")x+sin(" ++ par_rep ++ ")p", st)
  else if base_name = "FockStateProjector" then
    let n_str :=
      match dataGet o 0 with
      | .vec v => String.intercalate "," (v.map pyNumStr)
      | _ => ""
    .inr (cs.PIPE ++ n_str ++ cs.CROSSED_LINES ++ n_str ++ cs.PIPE, st)
  else if base_name = "PolyXP" then .inr (format_polyxp cs o, st)
  else if base_name = "FockState" then
    .inr (cs.PIPE ++ pyNumStr (match dataGet o 0 with | .num q => q | _ => 0) ++ cs.RANGLE, st)
  else if base_name = "BasisState" ∨ base_name = "FockStateVector" then
    let entry :=
      match dataGet o 0 with
      | .vec v => pyNumStr (v.getD (o.wires.indexOf wire) 0)
      | _ => ""
    .inr (cs.PIPE ++ entry ++ cs.RANGLE, st)
  else if base_name ∈ ["GaussianState", "FockDensityMatrix", "FockStateVector",
      "QubitStateVector", "Interferometer"] then
    let r := format_matrix_arguments o.data "M" st.matrix_cache
    .inr (name ++ r.1, { st with matrix_cache := r.2 })
  else
    .inr (name ++ "(" ++
      String.intercalate ", " (o.data.map single_parameter_representation) ++ ")", st)

/-- `operator_representation` (lines 321-435) on a plain (already
unwrapped, non-tensor) operator: resolve the display name through
`resolution_dict`, return the control glyph on a declared control wire,
otherwise dispatch on `base_name` and append the inverse suffix when the
`inverse` flag is set. -/
def opRepBase (cs : Charset) (o : Operator) (wire : Nat) (st : Caches) : String × Caches :=
  let base_name := baseNameOf o
  let name := (resolution_dict.lookup base_name).getD base_name
  if controlTest o wire then (cs.CONTROL, st)
  else
    match opDispatch cs o wire st base_name name with
    | .inl out => out
    | .inr r => (r.1 ++ (if o.inverse then cs.to_superscript "-1" else ""), r.2)

mutual

/-- `operator_representation` (lines 338-343) on a possibly-tensor
observable: a `Tensor`'s constituent representations are resolved
recursively (with the same wire, threading the caches left to right) and
joined with the `OTIMES` glyph surrounded by single spaces. -/
def bareRep (cs : Charset) : BareOp → Nat → Caches → String × Caches
  | .base o, wire, st => opRepBase cs o wire st
  | .tensor _ obs, wire, st =>
    let r := bareRepList cs obs wire st
    (String.intercalate (" " ++ cs.OTIMES ++ " ") r.1, r.2)

/-- The cache-threading evaluation of the list comprehension
`[self.operator_representation(tensor_obs, wire) for tensor_obs in op.obs]`
(lines 339-341). -/
def bareRepList (cs : Charset) : List BareOp → Nat → Caches → List String × Caches
  | [], _, st => ([], st)
  | o :: os, wire, st =>
    let r := bareRep cs o wire st
    let rest := bareRepList cs os wire r.2
    (r.1 :: rest.1, rest.2)

end

/-- `RepresentationResolver.operator_representation` (lines 321-435): a
`MeasurementProcess` is unwrapped to its observable, or represented as
`"basis"` when it has none; then tensors and plain operators are handled
as above. -/
def operator_representation (cs : Charset) (op : OpLike) (wire : Nat) (st : Caches) :
    String × Caches :=
  match op with
  | .measurement _ none => ("basis", st)
  | .measurement _ (some b) => bareRep cs b wire st
  | .bare b => bareRep cs b wire st

/-- Python `str(obs.return_type)`, as used by the fallback branch of
`output_representation` (line 468).  The string values of the known
`ObservableReturnTypes` members live in `pennylane/operation.py`, which is
not part of the sources under inspection; they are modelled from the spec
("expectation, variance, sample, probability, state") and are not relied
on by any claim.  `str(None)` is `"None"`, and an unknown tag is its own
string. -/
def pyStrReturnType : Option ReturnType → String
  | none => "None"
  | some .Expectation => "expval"
  | some .Variance => "var"
  | some .Sample => "sample"
  | some .Probability => "probs"
  | some .State => "state"
  | some (.other tag) => tag

/-- `RepresentationResolver.output_representation` (lines 437-468): wrap
the operator representation according to the measurement return type.
`Probability` and `State` do not call `operator_representation` (so they
leave the caches untouched); an unknown return type falls back to
`"{}[{}]".format(str(obs.return_type), ...)`. -/
def output_representation (cs : Charset) (obs : OpLike) (wire : Nat) (st : Caches) :
    String × Caches :=
  if obs.returnType = some .Expectation then
    let r := operator_representation cs obs wire st
    (cs.LANGLE ++ r.1 ++ cs.RANGLE, r.2)
  else if obs.returnType = some .Variance then
    let r := operator_representation cs obs wire st
    ("Var[" ++ r.1 ++ "]", r.2)
  else if obs.returnType = some .Sample then
    let r := operator_representation cs obs wire st
    ("Sample[" ++ r.1 ++ "]", r.2)
  else if obs.returnType = some .Probability then ("Probs", st)
  else if obs.returnType = some .State then ("State", st)
  else
    let r := operator_representation cs obs wire st
    (pyStrReturnType obs.returnType ++ "[" ++ r.1 ++ "]", r.2)

/-- An element of the circuit grid handed to `element_representation`:
`None`, a plain string, or an operator-like object. -/
inductive Element where
  | none
  | str (s : String)
  | op (o : OpLike)

/-- `RepresentationResolver.element_representation` (lines 470-490):
`None` becomes the empty string, a string is returned unchanged, an
`Observable` or `MeasurementProcess` with a non-`None` `return_type` is
routed to `output_representation`, and everything else to
`operator_representation`. -/
def element_representation (cs : Charset) (element : Element) (wire : Nat) (st : Caches) :
    String × Caches :=
  match element with
  | .none => ("", st)
  | .str s => (s, st)
  | .op o =>
    if o.isObservableOrMP && o.returnType.isSome then output_representation cs o wire st
    else operator_representation cs o wire st

/-- Modelled from the spec: the `UnicodeCharSet` of `charsets.py` (not
part of the sources under inspection), supplying the fixed glyphs and the
superscript/subscript conversions.  Only used to instantiate witnesses
and counterexamples; every general theorem quantifies over the charset. -/
def superChar (c : Char) : Char :=
  if c = '-' then '⁻'
  else if c = '0' then '⁰' else if c = '1' then '¹' else if c = '2' then '²'
  else if c = '3' then '³' else if c = '4' then '⁴' else if c = '5' then '⁵'
  else if c = '6' then '⁶' else if c = '7' then '⁷' else if c = '8' then '⁸'
  else if c = '9' then '⁹' else c

/-- Modelled from the spec: subscript digit conversion. -/
def subChar (c : Char) : Char :=
  if c = '0' then '₀' else if c = '1' then '₁' else if c = '2' then '₂'
  else if c = '3' then '₃' else if c = '4' then '₄' else if c = '5' then '₅'
  else if c = '6' then '₆' else if c = '7' then '₇' else if c = '8' then '₈'
  else if c = '9' then '₉' else c

/-- Modelled from the spec: a concrete Unicode charset. -/
def specCharset : Charset where
  CONTROL := "C"
  OTIMES := "⊗"
  PIPE := "|"
  LANGLE := "⟨"
  RANGLE := "⟩"
  CROSSED_LINES := "╳"
  to_superscript := fun s => String.mk (s.data.map superChar)
  to_subscript := fun n => String.mk ((natDigits n).map subChar)

/-! ### List helper lemmas for the significant-digit bound -/

theorem takeWhile_append_all {p : Char → Bool} {xs : List Char} (ys : List Char)
    (h : ∀ c ∈ xs, p c = true) : (xs ++ ys).takeWhile p = xs ++ ys.takeWhile p :=
  List.takeWhile_append_of_pos h

theorem dropWhile_append_all {p : Char → Bool} {xs : List Char} (ys : List Char)
    (h : ∀ c ∈ xs, p c = true) : (xs ++ ys).dropWhile p = ys.dropWhile p :=
  List.dropWhile_append_of_pos h

theorem takeWhile_all {p : Char → Bool} {l : List Char}
    (h : ∀ c ∈ l, p c = true) : l.takeWhile p = l :=
  List.takeWhile_eq_self_iff.mpr h

theorem filter_all {p : Char → Bool} {l : List Char}
    (h : ∀ c ∈ l, p c = true) : l.filter p = l :=
  List.filter_eq_self.mpr h

theorem length_dropWhile_le {p : Char → Bool} (l : List Char) :
    (l.dropWhile p).length ≤ l.length :=
  (List.dropWhile_sublist p).length_le

theorem mem_stripTrailingZeros {c : Char} {l : List Char}
    (h : c ∈ stripTrailingZeros l) : c ∈ l := by
  unfold stripTrailingZeros at h
  rw [List.mem_reverse] at h
  exact List.mem_reverse.mp ((List.dropWhile_sublist _).subset h)

theorem length_stripTrailingZeros_le (l : List Char) :
    (stripTrailingZeros l).length ≤ l.length := by
  unfold stripTrailingZeros
  rw [List.length_reverse]
  exact le_trans (length_dropWhile_le _) (by rw [List.length_reverse])

theorem digitChar_isDigit (n : Nat) : (digitChar n).isDigit = true := by
  unfold digitChar
  have h : n % 10 < 10 := Nat.mod_lt _ (by norm_num)
  revert h
  generalize n % 10 = k
  intro h
  interval_cases k <;> decide

theorem isDigit_ne_e {c : Char} (h : c.isDigit = true) : ¬((fun c => c == 'e') c = true) := by
  intro hc
  rw [beq_iff_eq] at hc
  subst hc
  exact absurd h (by decide)

theorem isDigit_keep {c : Char} (h : c.isDigit = true) : (fun c => !(c == 'e')) c = true := by
  have := isDigit_ne_e h
  simp only [Bool.not_eq_true'] at this ⊢
  simpa using this

theorem digits3_isDigit {m : Nat} : ∀ c ∈ digits3 m, c.isDigit = true := by
  intro c hc
  simp only [digits3, List.mem_cons, List.not_mem_nil, or_false] at hc
  rcases hc with rfl | rfl | rfl <;> exact digitChar_isDigit _

/-! ### The significant-digit bound for the `%.3g` renderer -/

theorem sigDigitCount_mk (l : List Char) :
    sigDigitCount (String.mk l) =
      (((l.takeWhile (fun c => !(c == 'e'))).filter (fun c => c.isDigit)).dropWhile
        (fun c => c == '0')).length := rfl

theorem sigCount_cons_dash (l : List Char) :
    sigDigitCount (String.mk ('-' :: l)) = sigDigitCount (String.mk l) := by
  rw [sigDigitCount_mk, sigDigitCount_mk, List.takeWhile_cons_of_pos (by decide),
    List.filter_cons_of_neg (by decide)]

theorem sigCount_exp_le (D tail : List Char) (hlen : D.length ≤ 3)
    (hdig : ∀ c ∈ D, c.isDigit = true) :
    sigDigitCount (String.mk ((D.take 1 ++
      (if D.length ≤ 1 then [] else '.' :: D.drop 1)) ++ 'e' :: tail)) ≤ 3 := by
  rw [sigDigitCount_mk]
  have hpre : ∀ c ∈ D.take 1 ++ (if D.length ≤ 1 then [] else '.' :: D.drop 1),
      (fun c => !(c == 'e')) c = true := by
    intro c hc
    rw [List.mem_append] at hc
    rcases hc with hc | hc
    · exact isDigit_keep (hdig c (List.mem_of_mem_take hc))
    · split at hc
      · cases hc
      · rw [List.mem_cons] at hc
        rcases hc with rfl | hc
        · decide
        · exact isDigit_keep (hdig c (List.mem_of_mem_drop hc))
  rw [takeWhile_append_all _ hpre,
    List.takeWhile_cons_of_neg (by decide), List.append_nil]
  refine le_trans (length_dropWhile_le _) ?_
  rw [List.filter_append, List.length_append]
  have h1 : ((D.take 1).filter (fun c => c.isDigit)).length ≤ (D.take 1).length :=
    List.length_filter_le _ _
  have h1' : (D.take 1).length ≤ 1 := by
    rw [List.length_take]
    omega
  have h2 : ((if D.length ≤ 1 then ([] : List Char) else '.' :: D.drop 1).filter
      (fun c => c.isDigit)).length ≤ D.length - 1 := by
    split
    · simp
    · rw [List.filter_cons_of_neg (by decide)]
      refine le_trans (List.length_filter_le _ _) ?_
      rw [List.length_drop]
  omega

theorem sigCount_all_digits_le (l : List Char) (hdig : ∀ c ∈ l, c.isDigit = true) :
    sigDigitCount (String.mk l) ≤ l.length := by
  rw [sigDigitCount_mk]
  rw [takeWhile_all (fun c hc => isDigit_keep (hdig c hc))]
  rw [filter_all hdig]
  exact length_dropWhile_le _

theorem sigCount_pad_le (D : List Char) (z : Nat) (h : D.length + z ≤ 3)
    (hdig : ∀ c ∈ D, c.isDigit = true) :
    sigDigitCount (String.mk (D ++ List.replicate z '0')) ≤ 3 := by
  have hall : ∀ c ∈ D ++ List.replicate z '0', c.isDigit = true := by
    intro c hc
    rw [List.mem_append] at hc
    rcases hc with hc | hc
    · exact hdig c hc
    · rw [List.eq_of_mem_replicate hc]; rfl
  refine le_trans (sigCount_all_digits_le _ hall) ?_
  rw [List.length_append, List.length_replicate]
  exact h

theorem sigCount_point_le (D : List Char) (k : Nat) (hlen : D.length ≤ 3)
    (hdig : ∀ c ∈ D, c.isDigit = true) :
    sigDigitCount (String.mk (D.take k ++ '.' :: D.drop k)) ≤ 3 := by
  rw [sigDigitCount_mk]
  have hall : ∀ c ∈ D.take k ++ '.' :: D.drop k, (fun c => !(c == 'e')) c = true := by
    intro c hc
    rw [List.mem_append] at hc
    rcases hc with hc | hc
    · exact isDigit_keep (hdig c (List.mem_of_mem_take hc))
    · rw [List.mem_cons] at hc
      rcases hc with rfl | hc
      · decide
      · exact isDigit_keep (hdig c (List.mem_of_mem_drop hc))
  rw [takeWhile_all hall]
  refine le_trans (length_dropWhile_le _) ?_
  rw [List.filter_append, List.filter_cons_of_neg (by decide), List.length_append]
  have h1 : ((D.take k).filter (fun c => c.isDigit)).length ≤ (D.take k).length :=
    List.length_filter_le _ _
  have h2 : ((D.drop k).filter (fun c => c.isDigit)).length ≤ (D.drop k).length :=
    List.length_filter_le _ _
  have h3 : (D.take k).length + (D.drop k).length = D.length := by
    rw [← List.length_append, List.take_append_drop]
  omega

theorem sigCount_lead_le (D : List Char) (z : Nat) (hlen : D.length ≤ 3)
    (hdig : ∀ c ∈ D, c.isDigit = true) :
    sigDigitCount (String.mk ('0' :: '.' :: (List.replicate z '0' ++ D))) ≤ 3 := by
  rw [sigDigitCount_mk]
  have hall : ∀ c ∈ ('0' :: '.' :: (List.replicate z '0' ++ D)),
      (fun c => !(c == 'e')) c = true := by
    intro c hc
    rw [List.mem_cons] at hc
    rcases hc with rfl | hc
    · decide
    · rw [List.mem_cons] at hc
      rcases hc with rfl | hc
      · decide
      · rw [List.mem_append] at hc
        rcases hc with hc | hc
        · rw [List.eq_of_mem_replicate hc]; decide
        · exact isDigit_keep (hdig c hc)
  rw [takeWhile_all hall]
  rw [List.filter_cons_of_pos (by decide), List.filter_cons_of_neg (by decide)]
  have hpre : ∀ c ∈ ('0' :: List.replicate z '0'), (fun c => c == '0') c = true := by
    intro c hc
    rw [List.mem_cons] at hc
    rcases hc with rfl | hc
    · decide
    · rw [List.eq_of_mem_replicate hc]; decide
  rw [List.filter_append, filter_all (fun c hc => by rw [List.eq_of_mem_replicate hc]; rfl),
    filter_all hdig]
  rw [show ('0' :: (List.replicate z '0' ++ D)) = ('0' :: List.replicate z '0') ++ D from rfl]
  rw [dropWhile_append_all D hpre]
  exact le_trans (length_dropWhile_le _) hlen

theorem sigCount_render3gBody_le (m : Nat) (e : ℤ) :
    sigDigitCount (String.mk (render3gBody m e)) ≤ 3 := by
  have h3 : (digits3 m).length = 3 := rfl
  have hlen : (stripTrailingZeros (digits3 m)).length ≤ 3 := by
    rw [← h3]
    exact length_stripTrailingZeros_le _
  have hdig : ∀ c ∈ stripTrailingZeros (digits3 m), c.isDigit = true :=
    fun c hc => digits3_isDigit c (mem_stripTrailingZeros hc)
  simp only [render3gBody]
  split
  · exact sigCount_exp_le _ _ hlen hdig
  · split
    · split
      · rename_i hnotexp hpos hfit
        refine sigCount_pad_le _ _ ?_ hdig
        have hne : ¬(e < -4 ∨ 3 ≤ e) := hnotexp
        omega
      · exact sigCount_point_le _ _ hlen hdig
    · exact sigCount_lead_le _ _ hlen hdig

theorem sigCount_format3gPos_le (na d : Nat) :
    sigDigitCount (String.mk (format3gPos na d)) ≤ 3 := by
  simp only [format3gPos]
  repeat' split
  all_goals exact sigCount_render3gBody_le _ _

/-- The `%.3g` rendering of any rational value has at most three
significant digits. -/
theorem format3g_sigDigitCount_le (q : ℚ) : sigDigitCount (format3g q) ≤ 3 := by
  rw [format3g]
  split
  · decide
  · split
    · rw [List.singleton_append, sigCount_cons_dash]
      exact sigCount_format3gPos_le _ _
    · rw [List.nil_append]
      exact sigCount_format3gPos_le _ _

/-! ### Helper lemmas about the matrix cache -/

theorem ioaa_found {α : Type} [DecidableEq α] (x : α) :
    ∀ l : List α, x ∈ l →
      ∃ i, i < l.length ∧ index_of_array_or_append x l = (i, l) ∧
        l[i]? = some x ∧ ∀ j < i, l[j]? ≠ some x := by
  intro l
  induction l with
  | nil => intro h; cases h
  | cons a t ih =>
    intro h
    by_cases ha : a = x
    · refine ⟨0, by simp, ?_, by simp [ha], fun j hj => absurd hj (by omega)⟩
      simp [index_of_array_or_append, ha]
    · have hx : x ∈ t := by
        rw [List.mem_cons] at h
        rcases h with rfl | h
        · exact absurd rfl ha
        · exact h
      obtain ⟨i, hi, heq, hget, hmin⟩ := ih hx
      refine ⟨i + 1, by simpa using hi, ?_, by simpa using hget, ?_⟩
      · simp [index_of_array_or_append, ha, heq]
      · intro j hj
        match j with
        | 0 => simpa using fun hax => ha hax
        | j' + 1 =>
          have : j' < i := by omega
          simpa using hmin j' this

theorem ioaa_not_found {α : Type} [DecidableEq α] (x : α) :
    ∀ l : List α, x ∉ l → index_of_array_or_append x l = (l.length, l ++ [x]) := by
  intro l
  induction l with
  | nil => intro _; rfl
  | cons a t ih =>
    intro h
    have ha : ¬(a = x) := fun hax => h (by rw [hax]; exact List.mem_cons_self _ _)
    have ht : x ∉ t := fun hxt => h (List.mem_cons_of_mem _ hxt)
    simp [index_of_array_or_append, ha, ih ht]

theorem ioaa_append_self {α : Type} [DecidableEq α] (x : α) :
    ∀ l : List α, x ∉ l → index_of_array_or_append x (l ++ [x]) = (l.length, l ++ [x]) := by
  intro l
  induction l with
  | nil => intro _; simp [index_of_array_or_append]
  | cons a t ih =>
    intro h
    have ha : ¬(a = x) := fun hax => h (by rw [hax]; exact List.mem_cons_self _ _)
    have ht : x ∉ t := fun hxt => h (List.mem_cons_of_mem _ hxt)
    simp [index_of_array_or_append, ha, ih ht]

/-! ### Claim theorems -/

/-- C1: `index_of_array_or_append(value, cache)` returns the position of
the first cache entry equal to `value` when one exists, leaving the cache
unchanged; otherwise it appends `value` and returns the new last position.
Consequently a second call with an equal value returns the same index and
leaves the cache unchanged again, and each call grows the cache by at most
one entry. -/
theorem index_of_array_or_append_spec {α : Type} [DecidableEq α] (x : α) (cache : List α) :
    (x ∈ cache →
      ∃ i, i < cache.length ∧ index_of_array_or_append x cache = (i, cache) ∧
        cache[i]? = some x ∧ ∀ j < i, cache[j]? ≠ some x) ∧
    (x ∉ cache → index_of_array_or_append x cache = (cache.length, cache ++ [x])) ∧
    (∀ y, y = x →
      index_of_array_or_append y (index_of_array_or_append x cache).2 =
        ((index_of_array_or_append x cache).1, (index_of_array_or_append x cache).2)) ∧
    (index_of_array_or_append x cache).2.length ≤ cache.length + 1 := by
  refine ⟨ioaa_found x cache, ioaa_not_found x cache, ?_, ?_⟩
  · intro y hy
    subst hy
    by_cases hx : y ∈ cache
    · obtain ⟨i, _, heq, _, _⟩ := ioaa_found y cache hx
      rw [heq]
      exact heq
    · rw [ioaa_not_found y cache hx]
      exact ioaa_append_self y cache hx
  · by_cases hx : x ∈ cache
    · obtain ⟨i, _, heq, _, _⟩ := ioaa_found x cache hx
      rw [heq]
      simp
    · rw [ioaa_not_found x cache hx]
      simp

/-- C1 witness: looking up a matrix absent from the cache appends it at
the end; a second lookup of an equal matrix finds it there, leaving the
cache unchanged. -/
theorem index_of_array_or_append_spec_witness :
    index_of_array_or_append ([[0, 1], [1, 0]] : List (List ℚ)) [[[1, 0], [0, 1]]] =
      (1, [[[1, 0], [0, 1]], [[0, 1], [1, 0]]]) ∧
    index_of_array_or_append ([[0, 1], [1, 0]] : List (List ℚ))
        [[[1, 0], [0, 1]], [[0, 1], [1, 0]]] =
      (1, [[[1, 0], [0, 1]], [[0, 1], [1, 0]]]) := by
  constructor
  · have h := (index_of_array_or_append_spec ([[0, 1], [1, 0]] : List (List ℚ))
      [[[1, 0], [0, 1]]]).2.1 (by decide)
    rw [h]
    decide
  · have h := (index_of_array_or_append_spec ([[0, 1], [1, 0]] : List (List ℚ))
      [[[1, 0], [0, 1]]]).2.2.1 [[0, 1], [1, 0]] rfl
    have h2 := (index_of_array_or_append_spec ([[0, 1], [1, 0]] : List (List ℚ))
      [[[1, 0], [0, 1]]]).2.1 (by decide)
    rw [h2] at h
    exact h

/-- C2 counterexample: the float `1.0` is rendered by
`single_parameter_representation` as `"1"`, which has one significant
digit, not exactly three; `%.3g` strips trailing zeros. -/
theorem single_parameter_representation_not_exactly_three :
    single_parameter_representation (.num 1) = "1" ∧
    sigDigitCount (single_parameter_representation (.num 1)) = 1 ∧
    sigDigitCount (single_parameter_representation (.num 1)) ≠ 3 := by
  refine ⟨by decide, by decide, by decide⟩

/-- C2 (amended): for every string argument `s`,
`single_parameter_representation(s)` returns `s` unchanged; for every
float argument `x` it returns the `%.3g` rendering of `x`, a string with
at most 3 significant digits. -/
theorem single_parameter_representation_amended :
    (∀ s : String, single_parameter_representation (.str s) = s) ∧
    (∀ q : ℚ, single_parameter_representation (.num q) = format3g q ∧
      sigDigitCount (single_parameter_representation (.num q)) ≤ 3) :=
  ⟨fun _ => rfl, fun q => ⟨rfl, format3g_sigDigitCount_le q⟩⟩

/-- C5: `_format_poly_term` returns `""` for coefficient `0`, the bare
variable for coefficient `1.0`, `"-"` plus the variable for `-1.0`, and
otherwise the coefficient in explicit-sign `%.3g` format followed by the
variable; in particular on `(0, "x")`, `(1.0, "x")`, `(-1.0, "x")` and
`(2.5, "x")` it returns `""`, `"x"`, `"-x"` and `"+2.5x"`. -/
theorem format_poly_term_spec :
    (∀ (c : ℚ) (v : String),
      (c = 0 → format_poly_term c v = "") ∧
      (c = 1 → format_poly_term c v = v) ∧
      (c = -1 → format_poly_term c v = "-" ++ v) ∧
      (c ≠ 0 → c ≠ 1 → c ≠ -1 → format_poly_term c v = format3gSigned c ++ v)) ∧
    format_poly_term 0 "x" = "" ∧
    format_poly_term 1 "x" = "x" ∧
    format_poly_term (-1) "x" = "-" ++ "x" ∧
    format_poly_term (mkRat 5 2) "x" = "+2.5x" := by
  refine ⟨fun c v => ⟨?_, ?_, ?_, ?_⟩, by decide, by decide, by decide, by decide⟩
  · intro h
    rw [format_poly_term, if_pos h]
  · intro h
    subst h
    rw [format_poly_term, if_neg (by norm_num), if_pos rfl]
  · intro h
    subst h
    rw [format_poly_term, if_neg (by norm_num), if_neg (by norm_num), if_pos rfl]
  · intro h0 h1 hm1
    rw [format_poly_term, if_neg h0, if_neg h1, if_neg hm1]

/-- C5 witness: the general rule evaluated at coefficient `2.5` and
variable `"x"` gives `"+2.5x"`. -/
theorem format_poly_term_spec_witness :
    format_poly_term (mkRat 5 2) "x" = "+2.5x" := by
  have h := (format_poly_term_spec.1 (mkRat 5 2) "x").2.2.2
    (by decide) (by decide) (by decide)
  rw [h]
  decide

theorem string_append_empty (s : String) : s ++ "" = s := by
  cases s with
  | mk data => show String.mk (data ++ []) = String.mk data
               rw [List.append_nil]

/-- Whenever the inner dispatch of `operator_representation` does not take
one of the two control-glyph early returns (`ControlledQubitUnitary` /
`MultiControlledX` on a control wire), it produces a `representation`
value to which the inverse suffix is still applied. -/
theorem opDispatch_inr (cs : Charset) (o : Operator) (wire : Nat) (st : Caches)
    (bn nm : String)
    (hcqu : ¬(bn = "ControlledQubitUnitary" ∧ wire ∈ o.control_wires))
    (hmcx : ¬(bn = "MultiControlledX" ∧ wire ∈ o.control_wires)) :
    ∃ p, opDispatch cs o wire st bn nm = Sum.inr p := by
  unfold opDispatch
  by_cases h0 : o.num_params = 0
  · rw [if_pos h0]; exact ⟨_, rfl⟩
  rw [if_neg h0]
  by_cases h1 : bn = "PauliRot"
  · rw [if_pos h1]; exact ⟨_, rfl⟩
  rw [if_neg h1]
  by_cases h2 : bn = "QubitUnitary"
  · rw [if_pos h2]; exact ⟨_, rfl⟩
  rw [if_neg h2]
  by_cases h3 : bn = "ControlledQubitUnitary"
  · rw [if_pos h3, if_neg (fun hm => hcqu ⟨h3, hm⟩)]
    exact ⟨_, rfl⟩
  rw [if_neg h3]
  by_cases h4 : bn = "MultiControlledX"
  · rw [if_pos h4, if_neg (fun hm => hmcx ⟨h4, hm⟩)]
    exact ⟨_, rfl⟩
  rw [if_neg h4]
  by_cases h5 : bn = "Hermitian"
  · rw [if_pos h5]; exact ⟨_, rfl⟩
  rw [if_neg h5]
  by_cases h6 : bn = "QuadOperator"
  · rw [if_pos h6]; exact ⟨_, rfl⟩
  rw [if_neg h6]
  by_cases h7 : bn = "FockStateProjector"
  · rw [if_pos h7]; exact ⟨_, rfl⟩
  rw [if_neg h7]
  by_cases h8 : bn = "PolyXP"
  · rw [if_pos h8]; exact ⟨_, rfl⟩
  rw [if_neg h8]
  by_cases h9 : bn = "FockState"
  · rw [if_pos h9]; exact ⟨_, rfl⟩
  rw [if_neg h9]
  by_cases h10 : bn = "BasisState" ∨ bn = "FockStateVector"
  · rw [if_pos h10]; exact ⟨_, rfl⟩
  rw [if_neg h10]
  by_cases h11 : bn ∈ ["GaussianState", "FockDensityMatrix", "FockStateVector",
      "QubitStateVector", "Interferometer"]
  · rw [if_pos h11]; exact ⟨_, rfl⟩
  rw [if_neg h11]
  exact ⟨_, rfl⟩

/-- C3: an operator whose base name is listed in `control_wire_dict`, at a
wire equal to `op.wires[i]` for one of the listed control indices `i`, is
represented by the charset's control glyph (and the caches are not
touched). -/
theorem control_wire_representation (cs : Charset) (o : Operator) (wire : Nat)
    (st : Caches) (idxs : List Nat) (i : Nat)
    (hdict : control_wire_dict.lookup (baseNameOf o) = some idxs)
    (hi : i ∈ idxs) (hw : o.wires[i]? = some wire) :
    operator_representation cs (.bare (.base o)) wire st = (cs.CONTROL, st) := by
  have hct : controlTest o wire = true := by
    unfold controlTest
    rw [hdict]
    simp only [decide_eq_true_eq]
    exact ⟨i, hi, hw⟩
  simp only [operator_representation, bareRep, opRepBase]
  rw [if_pos hct]

/-- C3 witness: a `CNOT` acting on wires `[3, 7]` is drawn as the control
glyph on wire `3` (control index `0`). -/
theorem control_wire_representation_witness :
    operator_representation specCharset (.bare (.base { name := "CNOT", wires := [3, 7] })) 3 {} =
      (specCharset.CONTROL, {}) :=
  control_wire_representation specCharset { name := "CNOT", wires := [3, 7] } 3 {} [0] 0
    (by decide) (by decide) (by decide)

/-- C6: the display name is resolved by direct lookup in
`resolution_dict` — in particular `"PauliX"`, `"CNOT"` and `"Toffoli"` all
map to `"X"` — and a base name absent from the table is used as its own
display name; exhibited on the parameterless branch (away from the
control-glyph early return and with the inverse flag unset, where the
representation is exactly the display name). -/
theorem operator_name_resolution (cs : Charset) (o : Operator) (wire : Nat) (st : Caches)
    (hctl : controlTest o wire = false) (hnp : o.num_params = 0) (hinv : o.inverse = false) :
    operator_representation cs (.bare (.base o)) wire st =
      ((resolution_dict.lookup (baseNameOf o)).getD (baseNameOf o), st) ∧
    (resolution_dict.lookup (baseNameOf o) = none →
      operator_representation cs (.bare (.base o)) wire st = (baseNameOf o, st)) ∧
    resolution_dict.lookup "PauliX" = some "X" ∧
    resolution_dict.lookup "CNOT" = some "X" ∧
    resolution_dict.lookup "Toffoli" = some "X" := by
  have hmain : operator_representation cs (.bare (.base o)) wire st =
      ((resolution_dict.lookup (baseNameOf o)).getD (baseNameOf o), st) := by
    simp only [operator_representation, bareRep, opRepBase]
    rw [if_neg (by rw [hctl]; exact Bool.false_ne_true)]
    rw [opDispatch, if_pos hnp]
    rw [hinv]
    simp only [Bool.false_eq_true, if_false]
    rw [string_append_empty]
  refine ⟨hmain, fun hnone => by rw [hmain, hnone]; rfl, by decide, by decide, by decide⟩

/-- C6 witness: `PauliX` is displayed as `"X"`; a gate named `"MyGate"`
that is absent from the table keeps its own name. -/
theorem operator_name_resolution_witness :
    operator_representation specCharset (.bare (.base { name := "PauliX", wires := [2] })) 2 {} =
      ("X", {}) ∧
    operator_representation specCharset (.bare (.base { name := "MyGate", wires := [2] })) 2 {} =
      ("MyGate", {}) := by
  constructor
  · have h := (operator_name_resolution specCharset { name := "PauliX", wires := [2] } 2 {}
      (by decide) rfl rfl).1
    rw [h]
    decide
  · have h := (operator_name_resolution specCharset { name := "MyGate", wires := [2] } 2 {}
      (by decide) rfl rfl).2.1 (by decide)
    rw [h]
    decide

/-- C7 counterexample: an inverted `CNOT` observed on its control wire is
drawn as the bare control glyph — the code returns before appending the
inverse suffix ("No need to add a -1 for inverse here") — so the claimed
"for every wire" fails. -/
theorem inverse_suffix_control_counterexample :
    (operator_representation specCharset
        (.bare (.base { name := "CNOT", wires := [3, 7], inverse := true })) 3 {}).1 =
      specCharset.CONTROL ∧
    ¬∃ r : String, (operator_representation specCharset
        (.bare (.base { name := "CNOT", wires := [3, 7], inverse := true })) 3 {}).1 =
      r ++ specCharset.to_superscript "-1" := by
  have hmain : (operator_representation specCharset
      (.bare (.base { name := "CNOT", wires := [3, 7], inverse := true })) 3 {}).1 = "C" := by
    decide
  constructor
  · rw [hmain]; rfl
  · rintro ⟨r, hr⟩
    rw [hmain] at hr
    have hlen := congrArg String.length hr
    rw [String.length_append] at hlen
    have h1 : ("C" : String).length = 1 := rfl
    have h2 : (specCharset.to_superscript "-1").length = 2 := rfl
    omega

/-- C7 (amended): for every operator whose inverse flag is set and every
wire on which no control-glyph early return fires (the wire is not a
declared control wire of the operator), the representation ends with the
charset's superscript `"-1"` suffix. -/
theorem inverse_suffix_amended (cs : Charset) (o : Operator) (wire : Nat) (st : Caches)
    (hinv : o.inverse = true) (hctl : controlTest o wire = false)
    (hcqu : ¬(baseNameOf o = "ControlledQubitUnitary" ∧ wire ∈ o.control_wires))
    (hmcx : ¬(baseNameOf o = "MultiControlledX" ∧ wire ∈ o.control_wires)) :
    ∃ r, (operator_representation cs (.bare (.base o)) wire st).1 =
      r ++ cs.to_superscript "-1" := by
  obtain ⟨p, hp⟩ := opDispatch_inr cs o wire st (baseNameOf o)
    ((resolution_dict.lookup (baseNameOf o)).getD (baseNameOf o)) hcqu hmcx
  simp only [operator_representation, bareRep, opRepBase]
  rw [if_neg (by rw [hctl]; exact Bool.false_ne_true)]
  rw [hp]
  rw [hinv]
  exact ⟨p.1, rfl⟩

/-- An inverted `RX` rotation gate, used to instantiate the amended C7. -/
def rxInvOp : Operator :=
  { name := "RX", wires := [0], num_params := 1, data := [.num 1], inverse := true }

/-- C7 witness: an inverted single-parameter rotation gate on its target
wire carries the superscript suffix. -/
theorem inverse_suffix_amended_witness :
    ∃ r, (operator_representation specCharset (.bare (.base rxInvOp)) 0 {}).1 =
      r ++ specCharset.to_superscript "-1" :=
  inverse_suffix_amended specCharset rxInvOp 0 {} rfl (by decide) (by decide) (by decide)

/-- C9: a `Tensor` observable is represented by resolving each constituent
recursively with the same wire (threading the caches left to right) and
joining the results with the `OTIMES` glyph surrounded by single spaces;
the joined result is returned as is, with no inverse suffix appended and
no control-glyph handling applied. -/
theorem tensor_representation (cs : Charset) (rt : Option ReturnType) (obs : List BareOp)
    (wire : Nat) (st : Caches) :
    operator_representation cs (.bare (.tensor rt obs)) wire st =
      (String.intercalate (" " ++ cs.OTIMES ++ " ") (bareRepList cs obs wire st).1,
        (bareRepList cs obs wire st).2) ∧
    bareRepList cs ([] : List BareOp) wire st = ([], st) ∧
    (∀ o os, bareRepList cs (o :: os) wire st =
      ((bareRep cs o wire st).1 ::
          (bareRepList cs os wire (bareRep cs o wire st).2).1,
        (bareRepList cs os wire (bareRep cs o wire st).2).2)) := by
  refine ⟨?_, ?_, fun o os => ?_⟩
  · simp only [operator_representation, bareRep]
  · simp only [bareRepList]
  · simp only [bareRepList]

/-- C4: on observables `output_representation` wraps the operator
representation according to the return type: `Expectation` in the
charset's angle brackets, `Variance` in `"Var[...]"`, `Sample` in
`"Sample[...]"`; `Probability` yields the fixed `"Probs"` and `State` the
fixed `"State"` (both without resolving the operator, so the caches are
untouched). -/
theorem output_representation_return_types (cs : Charset) (obs : OpLike) (wire : Nat)
    (st : Caches) :
    (obs.returnType = some .Expectation →
      output_representation cs obs wire st =
        (cs.LANGLE ++ (operator_representation cs obs wire st).1 ++ cs.RANGLE,
          (operator_representation cs obs wire st).2)) ∧
    (obs.returnType = some .Variance →
      output_representation cs obs wire st =
        ("Var[" ++ (operator_representation cs obs wire st).1 ++ "]",
          (operator_representation cs obs wire st).2)) ∧
    (obs.returnType = some .Sample →
      output_representation cs obs wire st =
        ("Sample[" ++ (operator_representation cs obs wire st).1 ++ "]",
          (operator_representation cs obs wire st).2)) ∧
    (obs.returnType = some .Probability →
      output_representation cs obs wire st = ("Probs", st)) ∧
    (obs.returnType = some .State →
      output_representation cs obs wire st = ("State", st)) := by
  unfold output_representation
  refine ⟨fun h => ?_, fun h => ?_, fun h => ?_, fun h => ?_, fun h => ?_⟩ <;>
    rw [h] <;> simp

/-- A `PauliZ` observable measured as an expectation value. -/
def pauliZExpOp : Operator :=
  { name := "PauliZ", wires := [0], is_observable := true, return_type := some .Expectation }

/-- C4 witness: a `PauliZ` observable measured as an expectation value is
rendered in angle brackets. -/
theorem output_representation_return_types_witness :
    output_representation specCharset (.bare (.base pauliZExpOp)) 0 {} = ("⟨Z⟩", {}) := by
  have h := (output_representation_return_types specCharset
    (.bare (.base pauliZExpOp)) 0 {}).1 rfl
  rw [h]
  decide

/-- C8: an observable whose return type is none of `Expectation`,
`Variance`, `Sample`, `Probability` or `State` falls back to the generic
string `str(return_type)` followed by the operator representation in
square brackets. -/
theorem output_representation_fallback (cs : Charset) (obs : OpLike) (wire : Nat)
    (st : Caches)
    (h1 : obs.returnType ≠ some .Expectation) (h2 : obs.returnType ≠ some .Variance)
    (h3 : obs.returnType ≠ some .Sample) (h4 : obs.returnType ≠ some .Probability)
    (h5 : obs.returnType ≠ some .State) :
    output_representation cs obs wire st =
      (pyStrReturnType obs.returnType ++ "[" ++
          (operator_representation cs obs wire st).1 ++ "]",
        (operator_representation cs obs wire st).2) := by
  unfold output_representation
  rw [if_neg h1, if_neg h2, if_neg h3, if_neg h4, if_neg h5]

/-- A `PauliZ` observable carrying an unknown return tag. -/
def pauliZCustomOp : Operator :=
  { name := "PauliZ", wires := [0], is_observable := true,
    return_type := some (.other "Custom") }

/-- C8 witness: an observable with the unknown return tag `"Custom"` is
rendered as `Custom[...]`. -/
theorem output_representation_fallback_witness :
    output_representation specCharset (.bare (.base pauliZCustomOp)) 0 {} =
      ("Custom[Z]", {}) := by
  have h := output_representation_fallback specCharset
    (.bare (.base pauliZCustomOp)) 0 {}
    (by decide) (by decide) (by decide) (by decide) (by decide)
  rw [h]
  decide

/-- C10: `element_representation` returns `""` for `None`, a string
element unchanged, routes an `Observable` or `MeasurementProcess` with a
non-`None` return type to `output_representation`, and every other
element to `operator_representation`. -/
theorem element_representation_spec (cs : Charset) (wire : Nat) (st : Caches) :
    element_representation cs .none wire st = ("", st) ∧
    (∀ s, element_representation cs (.str s) wire st = (s, st)) ∧
    (∀ o : OpLike, o.isObservableOrMP = true → o.returnType.isSome = true →
      element_representation cs (.op o) wire st = output_representation cs o wire st) ∧
    (∀ o : OpLike, o.isObservableOrMP = false ∨ o.returnType = Option.none →
      element_representation cs (.op o) wire st = operator_representation cs o wire st) := by
  refine ⟨rfl, fun s => rfl, fun o h1 h2 => ?_, fun o h => ?_⟩
  · simp only [element_representation]
    rw [h1, h2]
    rfl
  · simp only [element_representation]
    rcases h with h | h
    · rw [h]
      rfl
    · rw [h]
      simp

/-- C10 witness: a measurement process with `Sample` return type and no
observable is routed to `output_representation`, giving
`"Sample[basis]"`; a raw string passes through. -/
theorem element_representation_spec_witness :
    element_representation specCharset (.op (.measurement (some .Sample) Option.none)) 0 {} =
      ("Sample[basis]", {}) ∧
    element_representation specCharset (.str "∅") 0 {} = ("∅", {}) := by
  constructor
  · have h := (element_representation_spec specCharset 0 {}).2.2.1
      (.measurement (some .Sample) Option.none) rfl rfl
    rw [h]
    decide
  · exact (element_representation_spec specCharset 0 {}).2.1 "∅"

end PL
